import Mathlib

/-!
Shallow embedding of the core of `libavfilter/vf_drawtext.c` (drawtext video
filter): the glyph-bitmap coverage extraction, the per-pixel blend macros for
packed-RGB and planar-YUV frames, the box drawing, the two-pass text layout
of `draw_text`, and the glyph cache.  C `int` arithmetic is modelled with
`Nat`/`Int` (`Int.tdiv` for C signed division, `Int.shiftRight` for the
arithmetic right shift), and every store into a `uint8_t` location is
truncated mod 256 as the C conversion does.
-/

namespace Drawtext

/-- FreeType pixel-mode tag `FT_PIXEL_MODE_MONO`. -/
def FT_PIXEL_MODE_MONO : Nat := 1

/-- FreeType pixel-mode tag `FT_PIXEL_MODE_GRAY`. -/
def FT_PIXEL_MODE_GRAY : Nat := 2

/-- An `FT_Bitmap`: the glyph coverage bitmap handed over by the rasterizer.
`buffer` maps a byte index to the stored byte. -/
structure FTBitmap where
  rows : Nat
  width : Nat
  pitch : Nat
  pixel_mode : Nat
  buffer : Nat → Nat

/-- The `GET_BITMAP_VAL(r, c)` macro, as the C `int` expression it expands to:
for 1-bit-mono bitmaps it masks the bit `0x80 >> (c & 7)` out of the byte at
`r*pitch + (c >> 3)` and multiplies the (unshifted) mask result by 255; for
grayscale it reads the byte at `r*pitch + c`. -/
def get_bitmap_val (bitmap : FTBitmap) (r c : Nat) : Nat :=
  if bitmap.pixel_mode = FT_PIXEL_MODE_MONO then
    (Nat.land (bitmap.buffer (r * bitmap.pitch + c / 8)) (0x80 >>> (c % 8))) * 255
  else
    bitmap.buffer (r * bitmap.pitch + c)

/-- The coverage value actually used by the draw loops: `GET_BITMAP_VAL` is
assigned to the `uint8_t` local `src_val`, which truncates the int mod 256. -/
def src_val (bitmap : FTBitmap) (r c : Nat) : Nat :=
  get_bitmap_val bitmap r c % 256

/-- Pointwise update of a byte map, used to model a store through a pointer. -/
def updFn (f : Nat → Nat) (i v : Nat) : Nat → Nat :=
  fun j => if j = i then v else f j

/-- A packed-RGB frame: `data[0]` byte buffer plus `linesize[0]`. -/
structure RGBFrame where
  data0 : Nat → Nat
  linesize0 : Nat

/-- An RGBA color, `rgba_color[0..3]` of the C code. -/
structure RGBAColor where
  r : Nat
  g : Nat
  b : Nat
  a : Nat

/-- A planar YUV frame: three plane buffers and their linesizes. -/
structure YUVFrame where
  data0 : Nat → Nat
  data1 : Nat → Nat
  data2 : Nat → Nat
  linesize0 : Nat
  linesize1 : Nat
  linesize2 : Nat

/-- A YUVA color, `yuva_color[0..3]` of the C code. -/
structure YUVAColor where
  y : Nat
  u : Nat
  v : Nat
  a : Nat

/-- The `SET_PIXEL_RGB` macro: `alpha = color.a * val / 255`, then each of the
R, G, B bytes at `p = x*pixel_step + y*linesize` (plus its component offset)
is replaced by `(alpha * comp + (255 - alpha) * dest) >> 8`, stored through a
`uint8_t` pointer (mod 256).  The three stores happen in sequence, exactly as
in the macro; `a_off` is taken and ignored, as in the C macro. -/
def set_pixel_rgb (picref : RGBFrame) (rgba_color : RGBAColor) (val x y pixel_step
    r_off g_off b_off a_off : Nat) : RGBFrame :=
  let p := x * pixel_step + y * picref.linesize0
  let alpha := rgba_color.a * val / 255
  let d0 := updFn picref.data0 (p + r_off)
    (((alpha * rgba_color.r + (255 - alpha) * picref.data0 (p + r_off)) >>> 8) % 256)
  let d1 := updFn d0 (p + g_off)
    (((alpha * rgba_color.g + (255 - alpha) * d0 (p + g_off)) >>> 8) % 256)
  let d2 := updFn d1 (p + b_off)
    (((alpha * rgba_color.b + (255 - alpha) * d1 (p + b_off)) >>> 8) % 256)
  { picref with data0 := d2 }

/-- One chroma store of `SET_PIXEL_YUV`: C computes in signed int,
`alpha = color.a * val / 224`, result `16 + (alpha*(c-16) + (224-alpha)*(dest-16))/224`
with truncating division, stored into a `uint8_t` (mod 256). -/
def chroma_blend (alpha : Nat) (comp dest : Nat) : Nat :=
  (Int.emod (16 + Int.tdiv ((alpha : Int) * ((comp : Int) - 16)
      + (224 - (alpha : Int)) * ((dest : Int) - 16)) 224) 256).toNat

/-- The `SET_PIXEL_YUV` macro: luma at `x + y*linesize[0]` is blended with
`alpha = color.a * val / 255` and shift `>> 8`; the two chroma bytes at
`(x >> hsub) + (y >> vsub) * linesize` are blended in studio range with the
16-offset and divisor 224, using `alpha = color.a * val / 224`. -/
def set_pixel_yuv (picref : YUVFrame) (yuva_color : YUVAColor) (val x y hsub vsub : Nat) :
    YUVFrame :=
  let luma_pos := x + y * picref.linesize0
  let chroma_pos1 := (x >>> hsub) + (y >>> vsub) * picref.linesize1
  let chroma_pos2 := (x >>> hsub) + (y >>> vsub) * picref.linesize2
  let alphaL := yuva_color.a * val / 255
  let d0 := updFn picref.data0 luma_pos
    (((alphaL * yuva_color.y + (255 - alphaL) * picref.data0 luma_pos) >>> 8) % 256)
  let alphaC := yuva_color.a * val / 224
  let d1 := updFn picref.data1 chroma_pos1
    (chroma_blend alphaC yuva_color.u (picref.data1 chroma_pos1))
  let d2 := updFn picref.data2 chroma_pos2
    (chroma_blend alphaC yuva_color.v (picref.data2 chroma_pos2))
  { picref with data0 := d0, data1 := d1, data2 := d2 }

/-- Model of `draw_glyph_yuv`: iterate the bitmap samples, clipped by the loop guards
`r < rows && r+y < height` and `c < width_bm && c+x < width`; a sample with
`src_val = 0` is skipped (`continue`), otherwise `SET_PIXEL_YUV` is applied at
`(c+x, y+r)`. -/
def draw_glyph_yuv (picref : YUVFrame) (bitmap : FTBitmap) (x y width height : Nat)
    (yuva_color : YUVAColor) (hsub vsub : Nat) : YUVFrame :=
  (List.range (min bitmap.rows (height - y))).foldl (fun f1 r =>
    (List.range (min bitmap.width (width - x))).foldl (fun f2 c =>
      if src_val bitmap r c = 0 then f2
      else set_pixel_yuv f2 yuva_color (src_val bitmap r c) (c + x) (y + r) hsub vsub) f1)
    picref

/-- Model of `draw_glyph_rgb`: same loop structure as `draw_glyph_yuv`, with
`SET_PIXEL_RGB` applied at `(c+x, y+r)` when `src_val` is nonzero. -/
def draw_glyph_rgb (picref : RGBFrame) (bitmap : FTBitmap) (x y width height
    pixel_step : Nat) (rgba_color : RGBAColor) (m0 m1 m2 m3 : Nat) : RGBFrame :=
  (List.range (min bitmap.rows (height - y))).foldl (fun f1 r =>
    (List.range (min bitmap.width (width - x))).foldl (fun f2 c =>
      if src_val bitmap r c = 0 then f2
      else set_pixel_rgb f2 rgba_color (src_val bitmap r c) (c + x) (y + r) pixel_step
        m0 m1 m2 m3) f1)
    picref

/-- The general per-pixel blend path of `drawbox` for packed RGB: every pixel
of the `width × height` rectangle at `(x, y)` gets `SET_PIXEL_RGB` with
coverage 255. -/
def drawbox_rgb_blend (picref : RGBFrame) (x y width height pixel_step : Nat)
    (color : RGBAColor) (m0 m1 m2 m3 : Nat) : RGBFrame :=
  (List.range height).foldl (fun f1 j =>
    (List.range width).foldl (fun f2 i =>
      set_pixel_rgb f2 color 255 (i + x) (y + j) pixel_step m0 m1 m2 m3) f1)
    picref

/-- Modelled from the spec: the opaque fast path of `drawbox` calls
`ff_draw_rectangle` with `box_line` prepared by `ff_fill_line_with_color`;
both live in `drawutils.c`, which is not part of this repository snapshot.
The spec describes the fast path as an opaque rectangle fill (`fillRect`)
that writes the box color's format-native bytes exactly, so for packed RGB
each pixel's R, G, B bytes are set to the color bytes. -/
def fill_rect_rgb (picref : RGBFrame) (x y width height pixel_step : Nat)
    (color : RGBAColor) (m0 m1 m2 : Nat) : RGBFrame :=
  (List.range height).foldl (fun f1 j =>
    (List.range width).foldl (fun f2 i =>
      let p := (i + x) * pixel_step + (y + j) * f2.linesize0
      let d0 := updFn f2.data0 (p + m0) (color.r % 256)
      let d1 := updFn d0 (p + m1) (color.g % 256)
      let d2 := updFn d1 (p + m2) (color.b % 256)
      { f2 with data0 := d2 }) f1)
    picref

/-- The general per-pixel blend path of `drawbox` for planar YUV: every pixel
of the rectangle at `(x, y)` gets `SET_PIXEL_YUV` with coverage 255. -/
def drawbox_yuv_blend (picref : YUVFrame) (x y width height : Nat)
    (color : YUVAColor) (hsub vsub : Nat) : YUVFrame :=
  (List.range height).foldl (fun f1 j =>
    (List.range width).foldl (fun f2 i =>
      set_pixel_yuv f2 color 255 (i + x) (y + j) hsub vsub) f1)
    picref

/-- Modelled from the spec: the opaque fast path of `drawbox` for planar YUV
also goes through `ff_draw_rectangle`/`ff_fill_line_with_color` in
`drawutils.c`, which is not part of this repository snapshot.  The spec
describes it as an opaque rectangle fill writing the box color's
format-native bytes exactly, so every covered luma byte receives `Y` and
every covered chroma byte (at the subsampled position) receives `U`/`V`. -/
def fill_rect_yuv (picref : YUVFrame) (x y width height : Nat)
    (color : YUVAColor) (hsub vsub : Nat) : YUVFrame :=
  (List.range height).foldl (fun f1 j =>
    (List.range width).foldl (fun f2 i =>
      { f2 with
        data0 := updFn f2.data0 ((i + x) + (y + j) * f2.linesize0) (color.y % 256),
        data1 := updFn f2.data1 (((i + x) >>> hsub) + ((y + j) >>> vsub) * f2.linesize1)
          (color.u % 256),
        data2 := updFn f2.data2 (((i + x) >>> hsub) + ((y + j) >>> vsub) * f2.linesize2)
          (color.v % 256) }) f1)
    picref

/-- Model of `drawbox` for a planar-YUV frame: a color with `alpha != 0xFF`
goes through the general per-pixel blend, an opaque color takes the fast
path. -/
def drawbox_yuv (picref : YUVFrame) (x y width height : Nat)
    (color : YUVAColor) (hsub vsub : Nat) : YUVFrame :=
  if color.a ≠ 0xFF then drawbox_yuv_blend picref x y width height color hsub vsub
  else fill_rect_yuv picref x y width height color hsub vsub

/-- Model of `drawbox` for a packed-RGB frame: a color with `alpha != 0xFF` goes
through the general per-pixel blend, an opaque color takes the fast path. -/
def drawbox_rgb (picref : RGBFrame) (x y width height pixel_step : Nat)
    (color : RGBAColor) (m0 m1 m2 m3 : Nat) : RGBFrame :=
  if color.a ≠ 0xFF then
    drawbox_rgb_blend picref x y width height pixel_step color m0 m1 m2 m3
  else
    fill_rect_rgb picref x y width height pixel_step color m0 m1 m2

/-- The per-channel blend exactly as claim C1 words it: weight
`alpha = fgAlpha * v / 255` and divisor 255.  Spec-side definition, kept for
comparison against `set_pixel_rgb`. -/
def claimBlendChan (fgAlpha v fg dest : Nat) : Nat :=
  let alpha := fgAlpha * v / 255
  (alpha * fg + (255 - alpha) * dest) / 255

/-- The metrics of a cached `Glyph`: pixel advance (`advance.x >> 6`), the
bitmap placement offsets and the `FT_Glyph_Get_CBox` vertical extents. -/
structure GlyphM where
  advance : Int
  bitmap_left : Int
  bitmap_top : Int
  bboxYMin : Int
  bboxYMax : Int

/-- The inputs of the positioning pass of `draw_text`: the glyph cache as a
metrics map, the kerning provider (`FT_Get_Kerning` delta.x, in 1/64 pixel
units), the frame width, the configured origin, tab size, and the pass-1
outputs `text_height` and `baseline`. -/
structure LayoutEnv where
  glyphs : Nat → GlyphM
  use_kerning : Bool
  kern : Nat → Nat → Int
  width : Int
  x0 : Int
  y0 : Int
  tabsize : Int
  text_height : Int
  baseline : Int

/-- The mutable locals of the positioning loop of `draw_text`: the pen `x`,
`y`, the line-width accumulator `str_w`, the retained wrap width `str_w_max`,
`prev_code`, the `glyph` variable (the code of the glyph currently held, for
the kerning pair), and the `positions` array written so far (`none` marks an
index skipped by the CR-LF rule). -/
structure LayoutState where
  x : Int
  y : Int
  str_w : Int
  str_w_max : Int
  prev_code : Nat
  glyph : Option Nat
  positions : List (Option (Int × Int))

/-- Pass 1 of `draw_text`: fold the bounding boxes of all codepoints,
starting from `y_min = 32000`, `y_max = -32000`; returns
`(text_height, baseline) = (y_max - y_min, y_max)`. -/
def pass1 (glyphs : Nat → GlyphM) (codes : List Nat) : Int × Int :=
  let y_min := codes.foldl (fun m c => min (glyphs c).bboxYMin m) 32000
  let y_max := codes.foldl (fun m c => max (glyphs c).bboxYMax m) (-32000)
  (y_max - y_min, y_max)

/-- One iteration of the positioning loop of `draw_text` (lines 530-567):
1. a `\n` directly after `\r` is skipped before anything else (its positions
   slot stays unwritten, modelled as `none`);
2. kerning: if `use_kerning`, a previous glyph exists and the current code is
   nonzero, `delta.x >> 6` (arithmetic shift) is added to the pen `x`;
3. wrap: if the kerned `x` plus the glyph advance reaches `width`, or the
   code is `\r` or `\n`, then `str_w_max` is set to `width - x0 - 1` on the
   width condition only, `y` advances by `text_height` and `x` resets to `x0`;
4. the position `(x + bitmap_left, y - bitmap_top + baseline)` is saved
   unconditionally;
5. unless the code is `\n` or `\r`, the pen and `str_w` advance by the glyph
   advance, multiplied by `tabsize` for `\t`. -/
def layoutStep (env : LayoutEnv) (s : LayoutState) (code : Nat) : LayoutState :=
  if s.prev_code = 13 ∧ code = 10 then
    { s with positions := s.positions ++ [none] }
  else
    let g := env.glyphs code
    let xk : Int :=
      if env.use_kerning ∧ s.glyph.isSome ∧ code ≠ 0 then
        s.x + Int.shiftRight (env.kern (s.glyph.getD 0) code) 6
      else s.x
    let xw : Int := if xk + g.advance ≥ env.width ∨ code = 13 ∨ code = 10 then env.x0 else xk
    let yw : Int :=
      if xk + g.advance ≥ env.width ∨ code = 13 ∨ code = 10 then s.y + env.text_height else s.y
    let swm : Int := if xk + g.advance ≥ env.width then env.width - env.x0 - 1 else s.str_w_max
    let adv : Int := if code = 9 then g.advance * env.tabsize else g.advance
    { x := if code ≠ 10 ∧ code ≠ 13 then xw + adv else xw,
      y := yw,
      str_w := if code ≠ 10 ∧ code ≠ 13 then s.str_w + adv else s.str_w,
      str_w_max := swm,
      prev_code := code,
      glyph := some code,
      positions := s.positions ++ [some (xw + g.bitmap_left, yw - g.bitmap_top + env.baseline)] }

/-- The initial state of the positioning loop: pen at the configured origin,
accumulators zero, no previous code or glyph, empty positions. -/
def initLayoutState (env : LayoutEnv) : LayoutState :=
  { x := env.x0, y := env.y0, str_w := 0, str_w_max := 0,
    prev_code := 0, glyph := none, positions := [] }

/-- The whole positioning loop of `draw_text` over the decoded codepoints. -/
def layoutRun (env : LayoutEnv) (codes : List Nat) : LayoutState :=
  codes.foldl (layoutStep env) (initLayoutState env)

/-- After the loop, `str_w_max` falls back to the accumulator `str_w` when no
width-based wrap ever set it (lines 570-571). -/
def str_w_final (env : LayoutEnv) (codes : List Nat) : Int :=
  let st := layoutRun env codes
  if st.str_w_max = 0 then st.str_w else st.str_w_max

/-- The box width actually drawn: `FFMIN(str_w_max, width - x - 1)`
(line 576). -/
def box_width_drawn (env : LayoutEnv) (codes : List Nat) : Int :=
  min (str_w_final env codes) (env.width - env.x0 - 1)

/-- The codepoints the glyph-drawing loop acts on: `\n`, `\r` and `\t` are
skipped (lines 590-592). -/
def glyph_draw_codes (codes : List Nat) : List Nat :=
  codes.filter (fun code => !(code == 10 || code == 13 || code == 9))

/-- The total advance contributed to `str_w` by a codepoint sequence, given
the preceding code: a `\n` right after `\r` contributes nothing (and leaves
the previous code in place), `\n` and `\r` contribute nothing, `\t`
contributes `advance * tabsize`, anything else its advance. -/
def advance_sum (env : LayoutEnv) : Nat → List Nat → Int
  | _, [] => 0
  | prev, code :: rest =>
    if prev = 13 ∧ code = 10 then advance_sum env prev rest
    else
      (if code ≠ 10 ∧ code ≠ 13 then
        (if code = 9 then (env.glyphs code).advance * env.tabsize else (env.glyphs code).advance)
      else 0) + advance_sum env code rest

/-- The glyph cache: the `AVTree` keyed by codepoint is modelled as an
association list, together with the trace of rasterizer invocations
(`FT_Load_Char` calls) made so far. -/
structure GlyphCache where
  entries : List (Nat × GlyphM)
  calls : List Nat

/-- Model of `av_tree_find` with `glyph_cmp`: lookup by codepoint key. -/
def tree_find (entries : List (Nat × GlyphM)) (code : Nat) : Option GlyphM :=
  match entries with
  | [] => none
  | (c, g) :: rest => if c = code then some g else tree_find rest code

/-- Model of `load_glyph`: invoke the rasterizer for `code`, build the `Glyph` record
and insert it into the tree; the call is appended to the invocation trace. -/
def load_glyph (rast : Nat → GlyphM) (st : GlyphCache) (code : Nat) : GlyphCache × GlyphM :=
  let g := rast code
  ({ entries := (code, g) :: st.entries, calls := st.calls ++ [code] }, g)

/-- The cache access of `draw_text` (lines 516-520): `av_tree_find`, and on a
miss `load_glyph`. -/
def find_or_load (rast : Nat → GlyphM) (st : GlyphCache) (code : Nat) : GlyphCache × GlyphM :=
  match tree_find st.entries code with
  | some g => (st, g)
  | none => load_glyph rast st code

/-- The load-and-cache pass of `draw_text` (lines 512-524), threaded over a
codepoint sequence. -/
def load_pass (rast : Nat → GlyphM) (st : GlyphCache) (codes : List Nat) : GlyphCache :=
  codes.foldl (fun s c => (find_or_load rast s c).1) st

/-- The cache of a fresh filter instance. -/
def empty_cache : GlyphCache := { entries := [], calls := [] }

/-- The cache invariant: for every codepoint, either it has been rasterized
exactly once, exactly one record for it is in the tree and lookup returns the
rasterizer's record, or it has never been rasterized and lookup misses. -/
def cacheInv (rast : Nat → GlyphM) (st : GlyphCache) : Prop :=
  ∀ c : Nat,
    st.entries.countP (fun e => e.1 == c) = st.calls.count c ∧
    ((tree_find st.entries c = some (rast c) ∧ st.calls.count c = 1) ∨
     (tree_find st.entries c = none ∧ st.calls.count c = 0))

/-- A concrete 1-bit-mono bitmap: one row, eight columns, every bit of the
single byte set (`0xFF`). -/
def bm_mono : FTBitmap :=
  { rows := 1, width := 8, pitch := 1, pixel_mode := FT_PIXEL_MODE_MONO,
    buffer := fun i => if i = 0 then 0xFF else 0 }

/-- A concrete all-zero 8-bit-grayscale bitmap, 2 rows by 2 columns. -/
def bm_zero : FTBitmap :=
  { rows := 2, width := 2, pitch := 2, pixel_mode := FT_PIXEL_MODE_GRAY,
    buffer := fun _ => 0 }

/-- A concrete packed-RGB frame whose bytes are all 7. -/
def rframe7 : RGBFrame := { data0 := fun _ => 7, linesize0 := 4 }

/-- A concrete planar-YUV frame with constant plane contents. -/
def yframe0 : YUVFrame :=
  { data0 := fun _ => 7, data1 := fun _ => 100, data2 := fun _ => 200,
    linesize0 := 4, linesize1 := 2, linesize2 := 2 }

/-- A concrete opaque RGBA color. -/
def rcolor0 : RGBAColor := { r := 10, g := 20, b := 30, a := 255 }

/-- A concrete opaque YUVA color. -/
def ycolor0 : YUVAColor := { y := 16, u := 128, v := 128, a := 255 }

/-- A concrete glyph metric record: advance 10, placement offsets (1, 2),
vertical extent 0..8. -/
def cglyph : GlyphM :=
  { advance := 10, bitmap_left := 1, bitmap_top := 2, bboxYMin := 0, bboxYMax := 8 }

/-- A concrete layout environment with a wide frame and kerning off. -/
def cenvA : LayoutEnv :=
  { glyphs := fun _ => cglyph, use_kerning := false, kern := fun _ _ => 0,
    width := 1000, x0 := 0, y0 := 0, tabsize := 4, text_height := 8, baseline := 8 }

/-- A concrete layout environment with frame width 100 and kerning off. -/
def cenvW : LayoutEnv :=
  { glyphs := fun _ => cglyph, use_kerning := false, kern := fun _ _ => 0,
    width := 100, x0 := 0, y0 := 0, tabsize := 4, text_height := 8, baseline := 8 }

/-- A concrete layout state with the pen at `x = 90`. -/
def cstW : LayoutState :=
  { x := 90, y := 0, str_w := 0, str_w_max := 0, prev_code := 0, glyph := none,
    positions := [] }

/-- A concrete layout environment with kerning on and a constant kerning
delta of `-1` (one 64th of a pixel to the left). -/
def cenvK : LayoutEnv :=
  { glyphs := fun _ => cglyph, use_kerning := true, kern := fun _ _ => -1,
    width := 1000, x0 := 0, y0 := 0, tabsize := 4, text_height := 8, baseline := 8 }

/-- A concrete layout state holding a previous glyph for the kerning pair. -/
def cstK : LayoutState :=
  { x := 50, y := 0, str_w := 0, str_w_max := 0, prev_code := 65, glyph := some 65,
    positions := [] }

/-- A concrete layout environment for the box-width claim: frame width 100,
glyph advance 60 (0 for the newline glyph), so two short lines overflow the
clamp `width - x0 - 1 = 99` without any width-based wrap. -/
def cenvB : LayoutEnv :=
  { glyphs := fun c =>
      if c = 10 then
        { advance := 0, bitmap_left := 0, bitmap_top := 0, bboxYMin := 0, bboxYMax := 8 }
      else
        { advance := 60, bitmap_left := 0, bitmap_top := 0, bboxYMin := 0, bboxYMax := 8 },
    use_kerning := false, kern := fun _ _ => 0,
    width := 100, x0 := 0, y0 := 0, tabsize := 4, text_height := 8, baseline := 8 }

/-- A concrete rasterizer returning the same metrics for every codepoint. -/
def rast0 : Nat → GlyphM := fun _ => cglyph

end Drawtext

namespace Drawtext

/-- Right-shifting a `Nat` by 8 is division by 256. -/
theorem shiftRight8 (n : Nat) : n >>> 8 = n / 256 := by
  rw [Nat.shiftRight_eq_div_pow]

/-- A value at most `255 * 255` keeps its value through `/ 256` then
`% 256`. -/
theorem mod256_div256 (X : Nat) (h : X ≤ 255 * 255) : X / 256 % 256 = X / 256 := by
  omega

/-- A value at most `255 * 255` divided by 256 fits into a byte. -/
theorem div256_lt (X : Nat) (h : X ≤ 255 * 255) : X / 256 < 256 := by
  omega

/-- Applying a pointwise update. -/
theorem updFn_apply (f : Nat → Nat) (i v j : Nat) : updFn f i v j = if j = i then v else f j :=
  rfl

/-- C1 (corrected): at a fully-opaque, fully-covered sample the code does not
write `fg`: `set_pixel_rgb` writes `(255 * 255 + 0) >> 8 = 254` for a white
foreground over a black destination, while the claim's divide-by-255 formula
(`claimBlendChan`) gives 255. -/
theorem c1_counterexample :
    (set_pixel_rgb { data0 := fun _ => 0, linesize0 := 4 }
        { r := 255, g := 255, b := 255, a := 255 } 255 0 0 4 0 1 2 3).data0 0 = 254
    ∧ claimBlendChan 255 255 255 0 = 255 := by
  decide

/-- C1 (amended): for every luma or packed channel the written byte is
`(alpha * fg + (255 - alpha) * dest) >> 8` with `alpha = fgAlpha * v / 255`,
i.e. the divisor is 256 (an arithmetic shift), not 255; a fully-opaque,
fully-covered sample therefore writes `(255 * fg) / 256 = fg - min fg 1`,
which equals `fg` only for `fg = 0`. -/
theorem c1_blend_div256 (a v fg dest : Nat) (ha : a ≤ 255) (hv : v ≤ 255)
    (hfg : fg ≤ 255) (hd : dest ≤ 255) :
    (set_pixel_rgb { data0 := fun _ => dest, linesize0 := 4 }
        { r := fg, g := 0, b := 0, a := a } v 0 0 4 0 1 2 3).data0 0
      = ((a * v / 255) * fg + (255 - a * v / 255) * dest) / 256
    ∧ (set_pixel_yuv
        { data0 := fun _ => dest, data1 := fun _ => 128, data2 := fun _ => 128,
          linesize0 := 4, linesize1 := 2, linesize2 := 2 }
        { y := fg, u := 128, v := 128, a := a } v 0 0 1 1).data0 0
      = ((a * v / 255) * fg + (255 - a * v / 255) * dest) / 256
    ∧ (a = 255 → v = 255 →
        ((a * v / 255) * fg + (255 - a * v / 255) * dest) / 256 = fg - min fg 1) := by
  have halpha : a * v / 255 ≤ 255 := by
    have h1 : a * v ≤ 255 * 255 := Nat.mul_le_mul ha hv
    have h2 : a * v / 255 ≤ 255 * 255 / 255 := Nat.div_le_div_right h1
    simpa using h2
  have hX : (a * v / 255) * fg + (255 - a * v / 255) * dest ≤ 255 * 255 := by
    have h1 : (a * v / 255) * fg ≤ (a * v / 255) * 255 := Nat.mul_le_mul_left _ hfg
    have h2 : (255 - a * v / 255) * dest ≤ (255 - a * v / 255) * 255 :=
      Nat.mul_le_mul_left _ hd
    have h3 : (a * v / 255) * 255 + (255 - a * v / 255) * 255 = 255 * 255 := by
      have : a * v / 255 + (255 - a * v / 255) = 255 := by omega
      calc (a * v / 255) * 255 + (255 - a * v / 255) * 255
          = (a * v / 255 + (255 - a * v / 255)) * 255 := by ring
        _ = 255 * 255 := by rw [this]
    omega
  refine ⟨?_, ?_, ?_⟩
  · simp only [set_pixel_rgb, updFn, shiftRight8]
    norm_num
    exact div256_lt _ hX
  · simp only [set_pixel_yuv, updFn, shiftRight8]
    norm_num
    exact div256_lt _ hX
  · intro ha' hv'
    subst ha' hv'
    omega

/-- Witness for `c1_blend_div256` at `a = v = 255`, `fg = 200`, `dest = 7`. -/
theorem c1_witness :
    (set_pixel_rgb { data0 := fun _ => 7, linesize0 := 4 }
        { r := 200, g := 0, b := 0, a := 255 } 255 0 0 4 0 1 2 3).data0 0
      = ((255 * 255 / 255) * 200 + (255 - 255 * 255 / 255) * 7) / 256 :=
  (c1_blend_div256 255 255 200 7 (by decide) (by decide) (by decide) (by decide)).1

/-- C2 (code bug): for a 1-bit-mono bitmap the derived coverage of a set bit
is position dependent, not 255: the mono branch of `GET_BITMAP_VAL` multiplies
the unshifted mask result by 255, and the int is then truncated into the
`uint8_t` local `src_val`.  With every bit of the byte set, column 0 yields
coverage 128 (`0x80 * 255 mod 256`), column 1 yields 192, and only column 7
yields the 255 the spec promises; the untruncated macro value at column 0 is
32640. -/
theorem c2_mono_coverage_bug :
    src_val bm_mono 0 0 = 128 ∧ src_val bm_mono 0 1 = 192 ∧ src_val bm_mono 0 7 = 255
    ∧ get_bitmap_val bm_mono 0 0 = 32640 := by
  decide

/-- C3 (corrected): the opaque fast path and the general blend path of
`drawbox` are not bit-identical, on packed nor on planar frames: on a
one-pixel black packed frame with opaque white the fast path writes 255
while the general per-pixel blend writes 254, and on a one-pixel planar
frame with chroma 16 and an opaque color with `U = 128` the fast path
writes 128 into the chroma byte while the blend path writes 161. -/
theorem c3_counterexample :
    (drawbox_rgb { data0 := fun _ => 0, linesize0 := 4 } 0 0 1 1 4
        { r := 255, g := 255, b := 255, a := 255 } 0 1 2 3).data0 0 = 255
    ∧ (drawbox_rgb_blend { data0 := fun _ => 0, linesize0 := 4 } 0 0 1 1 4
        { r := 255, g := 255, b := 255, a := 255 } 0 1 2 3).data0 0 = 254
    ∧ (drawbox_yuv
        { data0 := fun _ => 0, data1 := fun _ => 16, data2 := fun _ => 16,
          linesize0 := 1, linesize1 := 1, linesize2 := 1 } 0 0 1 1
        { y := 235, u := 128, v := 128, a := 255 } 0 0).data1 0 = 128
    ∧ (drawbox_yuv_blend
        { data0 := fun _ => 0, data1 := fun _ => 16, data2 := fun _ => 16,
          linesize0 := 1, linesize1 := 1, linesize2 := 1 } 0 0 1 1
        { y := 235, u := 128, v := 128, a := 255 } 0 0).data1 0 = 161 := by
  decide

/-- The chroma studio-range blend reproduces the color byte exactly when the
destination byte already equals it, whatever the alpha weight: the two
weights sum to 224, so the numerator collapses to `224 * (comp - 16)`. -/
theorem chroma_blend_dest_eq (alpha comp : Nat) (h : comp ≤ 255) :
    chroma_blend alpha comp comp = comp := by
  unfold chroma_blend
  have h1 : (alpha : Int) * ((comp : Int) - 16) + (224 - (alpha : Int)) * ((comp : Int) - 16)
      = 224 * ((comp : Int) - 16) := by ring
  rw [h1, Int.mul_tdiv_cancel_left _ (by norm_num)]
  have h2 : (16 : Int) + ((comp : Int) - 16) = (comp : Int) := by ring
  rw [h2]
  show ((comp : Int) % 256).toNat = comp
  rw [Int.emod_eq_of_lt (Int.natCast_nonneg comp) (by omega)]
  simp

/-- C3 (amended): with `boxColor.alpha = 255`, `drawbox` takes the fast path
and writes the format-native color bytes exactly (packed bytes, luma and
chroma alike), while the general per-pixel blend path does not reproduce
them bit-for-bit: a packed or luma channel byte `c` is written as
`(255 * c) >> 8 = c - min c 1`, agreeing with the fast path if and only if
`c = 0`, and a planar chroma byte goes through the studio-range blend with
`alpha = 255 * 255 / 224 = 290`, which reproduces the chroma byte when the
destination already equals it but in general depends on the destination
(the counterexample blends chroma 128 over destination 16 to 161). -/
theorem c3_fastpath_vs_blend (c dest cy cu dl : Nat) (hc : c ≤ 255)
    (hcy : cy ≤ 255) (hcu : cu ≤ 255) :
    (drawbox_rgb { data0 := fun _ => dest, linesize0 := 4 } 0 0 1 1 4
        { r := c, g := 0, b := 0, a := 255 } 0 1 2 3).data0 0 = c
    ∧ (drawbox_rgb_blend { data0 := fun _ => dest, linesize0 := 4 } 0 0 1 1 4
        { r := c, g := 0, b := 0, a := 255 } 0 1 2 3).data0 0 = c - min c 1
    ∧ ((drawbox_rgb_blend { data0 := fun _ => dest, linesize0 := 4 } 0 0 1 1 4
          { r := c, g := 0, b := 0, a := 255 } 0 1 2 3).data0 0
        = (drawbox_rgb { data0 := fun _ => dest, linesize0 := 4 } 0 0 1 1 4
            { r := c, g := 0, b := 0, a := 255 } 0 1 2 3).data0 0 ↔ c = 0)
    ∧ (drawbox_yuv
        { data0 := fun _ => dl, data1 := fun _ => cu, data2 := fun _ => cu,
          linesize0 := 1, linesize1 := 1, linesize2 := 1 } 0 0 1 1
        { y := cy, u := cu, v := cu, a := 255 } 0 0).data0 0 = cy
    ∧ (drawbox_yuv
        { data0 := fun _ => dl, data1 := fun _ => cu, data2 := fun _ => cu,
          linesize0 := 1, linesize1 := 1, linesize2 := 1 } 0 0 1 1
        { y := cy, u := cu, v := cu, a := 255 } 0 0).data1 0 = cu
    ∧ (drawbox_yuv_blend
        { data0 := fun _ => dl, data1 := fun _ => cu, data2 := fun _ => cu,
          linesize0 := 1, linesize1 := 1, linesize2 := 1 } 0 0 1 1
        { y := cy, u := cu, v := cu, a := 255 } 0 0).data0 0 = cy - min cy 1
    ∧ (drawbox_yuv_blend
        { data0 := fun _ => dl, data1 := fun _ => cu, data2 := fun _ => cu,
          linesize0 := 1, linesize1 := 1, linesize2 := 1 } 0 0 1 1
        { y := cy, u := cu, v := cu, a := 255 } 0 0).data1 0 = cu := by
  have hfill :
      (drawbox_rgb { data0 := fun _ => dest, linesize0 := 4 } 0 0 1 1 4
        { r := c, g := 0, b := 0, a := 255 } 0 1 2 3).data0 0 = c := by
    simp only [drawbox_rgb, fill_rect_rgb, List.range_succ, List.range_zero, List.foldl_cons,
      List.foldl_nil, List.foldl_append, updFn_apply]
    norm_num [updFn_apply]
    omega
  have hblend :
      (drawbox_rgb_blend { data0 := fun _ => dest, linesize0 := 4 } 0 0 1 1 4
        { r := c, g := 0, b := 0, a := 255 } 0 1 2 3).data0 0 = c - min c 1 := by
    simp only [drawbox_rgb_blend, set_pixel_rgb, List.range_succ, List.range_zero,
      List.foldl_cons, List.foldl_nil, List.foldl_append, shiftRight8]
    norm_num [updFn_apply]
    have h1 : 255 * c ≤ 255 * 255 := Nat.mul_le_mul_left _ hc
    rw [Nat.mod_eq_of_lt (by omega : 255 * c / 256 < 256)]
    omega
  refine ⟨hfill, hblend, ?_, ?_, ?_, ?_, ?_⟩
  · rw [hfill, hblend]
    omega
  · simp only [drawbox_yuv, fill_rect_yuv, List.range_succ, List.range_zero, List.foldl_cons,
      List.foldl_nil, List.foldl_append, Nat.shiftRight_zero]
    norm_num [updFn_apply]
    omega
  · simp only [drawbox_yuv, fill_rect_yuv, List.range_succ, List.range_zero, List.foldl_cons,
      List.foldl_nil, List.foldl_append, Nat.shiftRight_zero]
    norm_num [updFn_apply]
    omega
  · simp only [drawbox_yuv_blend, set_pixel_yuv, List.range_succ, List.range_zero,
      List.foldl_cons, List.foldl_nil, List.foldl_append, Nat.shiftRight_zero, shiftRight8]
    norm_num [updFn_apply]
    have h1 : 255 * cy ≤ 255 * 255 := Nat.mul_le_mul_left _ hcy
    rw [Nat.mod_eq_of_lt (by omega : 255 * cy / 256 < 256)]
    omega
  · simp only [drawbox_yuv_blend, set_pixel_yuv, List.range_succ, List.range_zero,
      List.foldl_cons, List.foldl_nil, List.foldl_append, Nat.shiftRight_zero]
    norm_num [updFn_apply]
    exact chroma_blend_dest_eq _ cu hcu

/-- Witness for `c3_fastpath_vs_blend` at `c = 0`, `dest = 9`, `cy = 7`,
`cu = 100`, `dl = 3`: the packed paths agree at color byte 0 and the chroma
blend over an equal destination reproduces the byte. -/
theorem c3_witness :
    (drawbox_rgb { data0 := fun _ => 9, linesize0 := 4 } 0 0 1 1 4
        { r := 0, g := 0, b := 0, a := 255 } 0 1 2 3).data0 0 = 0
    ∧ (drawbox_yuv_blend
        { data0 := fun _ => 3, data1 := fun _ => 100, data2 := fun _ => 100,
          linesize0 := 1, linesize1 := 1, linesize2 := 1 } 0 0 1 1
        { y := 7, u := 100, v := 100, a := 255 } 0 0).data1 0 = 100 :=
  ⟨(c3_fastpath_vs_blend 0 9 7 100 3 (by decide) (by decide) (by decide)).1,
   (c3_fastpath_vs_blend 0 9 7 100 3 (by decide) (by decide) (by decide)).2.2.2.2.2.2⟩

/-- A fold whose body fixes every accumulator returns its initial value. -/
theorem foldl_fix {α : Type} (f : α → Nat → α) (l : List Nat) (a : α)
    (h : ∀ x ∈ l, ∀ acc, f acc x = acc) : l.foldl f a = a := by
  induction l generalizing a with
  | nil => rfl
  | cons x xs ih =>
    simp only [List.foldl_cons]
    rw [h x (by simp) a]
    exact ih a (fun y hy acc => h y (by simp [hy]) acc)

/-- C4 (confirmed): both glyph-draw paths skip every zero-coverage sample, so
drawing a bitmap whose coverage is everywhere zero leaves the whole frame
(luma, chroma and packed bytes) bit-for-bit unchanged. -/
theorem c4_zero_coverage_noop (fy : YUVFrame) (fr : RGBFrame) (bitmap : FTBitmap)
    (x y width height pixel_step hsub vsub m0 m1 m2 m3 : Nat)
    (cy : YUVAColor) (cr : RGBAColor)
    (h : ∀ r c, r < bitmap.rows → c < bitmap.width → src_val bitmap r c = 0) :
    draw_glyph_yuv fy bitmap x y width height cy hsub vsub = fy
    ∧ draw_glyph_rgb fr bitmap x y width height pixel_step cr m0 m1 m2 m3 = fr := by
  constructor
  · apply foldl_fix
    intro r hr acc
    apply foldl_fix
    intro c hc acc2
    have hr' : r < bitmap.rows := by
      simp only [List.mem_range] at hr; omega
    have hc' : c < bitmap.width := by
      simp only [List.mem_range] at hc; omega
    rw [if_pos (h r c hr' hc')]
  · apply foldl_fix
    intro r hr acc
    apply foldl_fix
    intro c hc acc2
    have hr' : r < bitmap.rows := by
      simp only [List.mem_range] at hr; omega
    have hc' : c < bitmap.width := by
      simp only [List.mem_range] at hc; omega
    rw [if_pos (h r c hr' hc')]

/-- Witness for `c4_zero_coverage_noop` on the all-zero grayscale bitmap over
concrete frames. -/
theorem c4_witness :
    draw_glyph_yuv yframe0 bm_zero 1 1 10 10 ycolor0 1 1 = yframe0
    ∧ draw_glyph_rgb rframe7 bm_zero 1 1 10 10 4 rcolor0 0 1 2 3 = rframe7 :=
  c4_zero_coverage_noop yframe0 rframe7 bm_zero 1 1 10 10 4 1 1 0 1 2 3 ycolor0 rcolor0
    (fun _ _ _ _ => rfl)

/-- A codepoint that is a `\n` right after a `\r` only appends an unwritten
positions slot. -/
theorem layoutStep_skip (env : LayoutEnv) (s : LayoutState) (code : Nat)
    (h13 : s.prev_code = 13) (h10 : code = 10) :
    layoutStep env s code = { s with positions := s.positions ++ [none] } := by
  simp [layoutStep, h13, h10]

/-- A drawable, non-tab codepoint that neither kerns nor wraps advances the
pen and the accumulator by its advance and records its position at the
current pen. -/
theorem layoutStep_plain (env : LayoutEnv) (s : LayoutState) (code : Nat)
    (hskip : ¬(s.prev_code = 13 ∧ code = 10)) (hk : env.use_kerning = false)
    (hw : s.x + (env.glyphs code).advance < env.width)
    (h13 : code ≠ 13) (h10 : code ≠ 10) (h9 : code ≠ 9) :
    layoutStep env s code =
      { x := s.x + (env.glyphs code).advance, y := s.y,
        str_w := s.str_w + (env.glyphs code).advance, str_w_max := s.str_w_max,
        prev_code := code, glyph := some code,
        positions := s.positions ++ [some (s.x + (env.glyphs code).bitmap_left,
          s.y - (env.glyphs code).bitmap_top + env.baseline)] } := by
  simp [layoutStep, hskip, hk, h13, h10, h9, not_le.mpr hw]

/-- A `\r` with no width-based wrap pending resets the pen to the origin,
advances the line, and leaves `str_w` and `str_w_max` alone. -/
theorem layoutStep_cr (env : LayoutEnv) (s : LayoutState)
    (hk : env.use_kerning = false)
    (hw : s.x + (env.glyphs 13).advance < env.width) :
    layoutStep env s 13 =
      { x := env.x0, y := s.y + env.text_height, str_w := s.str_w,
        str_w_max := s.str_w_max, prev_code := 13, glyph := some 13,
        positions := s.positions ++ [some (env.x0 + (env.glyphs 13).bitmap_left,
          (s.y + env.text_height) - (env.glyphs 13).bitmap_top + env.baseline)] } := by
  simp [layoutStep, hk, not_le.mpr hw]

/-- C5 (confirmed): with kerning off and outside the CR-LF suppression, a
step wraps exactly when `pen.x + advance ≥ width` or the code is `\r` or
`\n`: the pen `y` advances by `text_height` exactly under that condition, a
wrapped drawable glyph is placed from `x0`, the boundary case
`pen.x + advance = width` wraps, and `pen.x + advance = width - 1` does
not. -/
theorem c5_wrap_boundary (env : LayoutEnv) (s : LayoutState) (code : Nat)
    (hk : env.use_kerning = false) (hskip : ¬(s.prev_code = 13 ∧ code = 10)) :
    ((layoutStep env s code).y
      = if s.x + (env.glyphs code).advance ≥ env.width ∨ code = 13 ∨ code = 10
        then s.y + env.text_height else s.y)
    ∧ (s.x + (env.glyphs code).advance ≥ env.width → code ≠ 13 → code ≠ 10 → code ≠ 9 →
        (layoutStep env s code).x = env.x0 + (env.glyphs code).advance)
    ∧ (¬(s.x + (env.glyphs code).advance ≥ env.width) → code ≠ 13 → code ≠ 10 → code ≠ 9 →
        (layoutStep env s code).x = s.x + (env.glyphs code).advance)
    ∧ (s.x + (env.glyphs code).advance = env.width →
        (layoutStep env s code).y = s.y + env.text_height)
    ∧ (s.x + (env.glyphs code).advance = env.width - 1 → code ≠ 13 → code ≠ 10 →
        (layoutStep env s code).y = s.y) := by
  refine ⟨?_, ?_, ?_, ?_, ?_⟩ <;>
    intros <;>
    simp only [layoutStep, hk, Bool.false_eq_true, false_and, if_false, if_neg hskip] <;>
    split_ifs <;>
    first | rfl | trivial | omega

/-- Witness for `c5_wrap_boundary`: with frame width 100, pen at 90 and
advance 10, the boundary sample `pen.x + advance = width` wraps. -/
theorem c5_witness : (layoutStep cenvW cstW 65).y = cstW.y + cenvW.text_height :=
  (c5_wrap_boundary cenvW cstW 65 rfl (by decide)).2.2.2.1 (by decide)

/-- C6 (confirmed): for the text `"A\r\nB"` (codepoints 65, 13, 10, 66) with
kerning off and a wrap width too large for any width-based wrap, the layout
records `A` on the first line and `B` on the second: the `\n` right after
`\r` leaves its slot unwritten and the pen `y` advances by `text_height`
exactly once. -/
theorem c6_crlf_collapse (env : LayoutEnv)
    (hk : env.use_kerning = false)
    (hA : env.x0 + (env.glyphs 65).advance < env.width)
    (hCR : env.x0 + (env.glyphs 65).advance + (env.glyphs 13).advance < env.width)
    (hB : env.x0 + (env.glyphs 66).advance < env.width) :
    (layoutRun env [65, 13, 10, 66]).positions
      = [some (env.x0 + (env.glyphs 65).bitmap_left,
           env.y0 - (env.glyphs 65).bitmap_top + env.baseline),
         some (env.x0 + (env.glyphs 13).bitmap_left,
           (env.y0 + env.text_height) - (env.glyphs 13).bitmap_top + env.baseline),
         none,
         some (env.x0 + (env.glyphs 66).bitmap_left,
           (env.y0 + env.text_height) - (env.glyphs 66).bitmap_top + env.baseline)]
    ∧ (layoutRun env [65, 13, 10, 66]).y = env.y0 + env.text_height := by
  have h1 : layoutStep env (initLayoutState env) 65 =
      { x := env.x0 + (env.glyphs 65).advance, y := env.y0,
        str_w := (env.glyphs 65).advance, str_w_max := 0, prev_code := 65,
        glyph := some 65,
        positions := [some (env.x0 + (env.glyphs 65).bitmap_left,
          env.y0 - (env.glyphs 65).bitmap_top + env.baseline)] } := by
    rw [layoutStep_plain env (initLayoutState env) 65 (by simp [initLayoutState]) hk
      (by simpa [initLayoutState] using hA) (by decide) (by decide) (by decide)]
    simp [initLayoutState]
  have h2 : layoutStep env
      { x := env.x0 + (env.glyphs 65).advance, y := env.y0,
        str_w := (env.glyphs 65).advance, str_w_max := 0, prev_code := 65,
        glyph := some 65,
        positions := [some (env.x0 + (env.glyphs 65).bitmap_left,
          env.y0 - (env.glyphs 65).bitmap_top + env.baseline)] } 13 =
      { x := env.x0, y := env.y0 + env.text_height,
        str_w := (env.glyphs 65).advance, str_w_max := 0, prev_code := 13,
        glyph := some 13,
        positions := [some (env.x0 + (env.glyphs 65).bitmap_left,
            env.y0 - (env.glyphs 65).bitmap_top + env.baseline),
          some (env.x0 + (env.glyphs 13).bitmap_left,
            (env.y0 + env.text_height) - (env.glyphs 13).bitmap_top + env.baseline)] } := by
    rw [layoutStep_cr env _ hk (by simp; omega)]
    simp
  have h3 : layoutStep env
      { x := env.x0, y := env.y0 + env.text_height,
        str_w := (env.glyphs 65).advance, str_w_max := 0, prev_code := 13,
        glyph := some 13,
        positions := [some (env.x0 + (env.glyphs 65).bitmap_left,
            env.y0 - (env.glyphs 65).bitmap_top + env.baseline),
          some (env.x0 + (env.glyphs 13).bitmap_left,
            (env.y0 + env.text_height) - (env.glyphs 13).bitmap_top + env.baseline)] } 10 =
      { x := env.x0, y := env.y0 + env.text_height,
        str_w := (env.glyphs 65).advance, str_w_max := 0, prev_code := 13,
        glyph := some 13,
        positions := [some (env.x0 + (env.glyphs 65).bitmap_left,
            env.y0 - (env.glyphs 65).bitmap_top + env.baseline),
          some (env.x0 + (env.glyphs 13).bitmap_left,
            (env.y0 + env.text_height) - (env.glyphs 13).bitmap_top + env.baseline),
          none] } := by
    rw [layoutStep_skip env _ 10 rfl rfl]
    rfl
  have h4 : layoutStep env
      { x := env.x0, y := env.y0 + env.text_height,
        str_w := (env.glyphs 65).advance, str_w_max := 0, prev_code := 13,
        glyph := some 13,
        positions := [some (env.x0 + (env.glyphs 65).bitmap_left,
            env.y0 - (env.glyphs 65).bitmap_top + env.baseline),
          some (env.x0 + (env.glyphs 13).bitmap_left,
            (env.y0 + env.text_height) - (env.glyphs 13).bitmap_top + env.baseline),
          none] } 66 =
      { x := env.x0 + (env.glyphs 66).advance, y := env.y0 + env.text_height,
        str_w := (env.glyphs 65).advance + (env.glyphs 66).advance, str_w_max := 0,
        prev_code := 66, glyph := some 66,
        positions := [some (env.x0 + (env.glyphs 65).bitmap_left,
            env.y0 - (env.glyphs 65).bitmap_top + env.baseline),
          some (env.x0 + (env.glyphs 13).bitmap_left,
            (env.y0 + env.text_height) - (env.glyphs 13).bitmap_top + env.baseline),
          none,
          some (env.x0 + (env.glyphs 66).bitmap_left,
            (env.y0 + env.text_height) - (env.glyphs 66).bitmap_top + env.baseline)] } := by
    rw [layoutStep_plain env _ 66 (by simp) hk (by simpa using hB) (by decide) (by decide)
      (by decide)]
    rfl
  have hrun : layoutRun env [65, 13, 10, 66]
      = layoutStep env (layoutStep env (layoutStep env
          (layoutStep env (initLayoutState env) 65) 13) 10) 66 := rfl
  rw [hrun, h1, h2, h3, h4]
  exact ⟨rfl, rfl⟩

/-- Witness for `c6_crlf_collapse` in the concrete wide environment. -/
theorem c6_witness : (layoutRun cenvA [65, 13, 10, 66]).y = cenvA.y0 + cenvA.text_height :=
  (c6_crlf_collapse cenvA rfl (by decide) (by decide) (by decide)).2

/-- A step always appends exactly one positions slot. -/
theorem positions_length_step (env : LayoutEnv) (s : LayoutState) (code : Nat) :
    (layoutStep env s code).positions.length = s.positions.length + 1 := by
  simp only [layoutStep]
  split_ifs <;> simp

/-- The positioning loop appends one positions slot per codepoint. -/
theorem positions_length_run (env : LayoutEnv) (codes : List Nat) :
    ∀ s : LayoutState,
      (codes.foldl (layoutStep env) s).positions.length
        = s.positions.length + codes.length := by
  induction codes with
  | nil => intro s; simp
  | cons c cs ih =>
    intro s
    simp only [List.foldl_cons, List.length_cons]
    rw [ih (layoutStep env s c), positions_length_step]
    omega

/-- Any codepoint other than `\n` gets a written (`some`) positions slot. -/
theorem positions_step_some (env : LayoutEnv) (s : LayoutState) (code : Nat)
    (h10 : code ≠ 10) :
    ∃ q, (layoutStep env s code).positions = s.positions ++ [some q] := by
  simp only [layoutStep]
  rw [if_neg (by simp [h10] : ¬(s.prev_code = 13 ∧ code = 10))]
  exact ⟨_, rfl⟩

/-- C7 (amended): the positioning loop writes one positions slot per
codepoint, and every codepoint outside the CR-LF suppression — ordinary
glyphs, `\t`, `\r` and a standalone `\n` alike — records
`some (pen.x + bitmap_left, pen.y - bitmap_top + baseline)` with the pen
taken after the kerning and wrap adjustments (recovered below as the
resulting pen `x` minus the advance applied afterwards); only a `\n` right
after `\r` leaves its slot unwritten (`none`); the codepoints `\n`, `\r`,
`\t` are excluded from the glyph-drawing loop, so their recorded slots are
never drawn. -/
theorem c7_positions_recorded (env : LayoutEnv) (codes : List Nat) (s : LayoutState)
    (code : Nat) :
    (layoutRun env codes).positions.length = codes.length
    ∧ (¬(s.prev_code = 13 ∧ code = 10) →
        (layoutStep env s code).positions
          = s.positions ++ [some
              ((layoutStep env s code).x
                  - (if code ≠ 10 ∧ code ≠ 13 then
                      (if code = 9 then (env.glyphs code).advance * env.tabsize
                       else (env.glyphs code).advance)
                    else 0)
                  + (env.glyphs code).bitmap_left,
               (layoutStep env s code).y - (env.glyphs code).bitmap_top + env.baseline)])
    ∧ (s.prev_code = 13 → code = 10 →
        (layoutStep env s code).positions = s.positions ++ [none])
    ∧ (∀ c ∈ glyph_draw_codes codes, c ≠ 9 ∧ c ≠ 10 ∧ c ≠ 13) := by
  refine ⟨?_, ?_, ?_, ?_⟩
  · rw [layoutRun, positions_length_run]
    simp [initLayoutState]
  · intro hskip
    simp only [layoutStep]
    rw [if_neg hskip]
    split_ifs <;> simp
  · intro h13 h10
    rw [layoutStep_skip env s code h13 h10]
  · intro c hc
    rw [glyph_draw_codes, List.mem_filter] at hc
    have h2 := hc.2
    simp at h2
    tauto

/-- C7 counterexample to the claim as stated: laying out the single tab
codepoint records a position for it (the claim says `\t` records none). -/
theorem c7_counterexample : (layoutRun cenvA [9]).positions = [some (1, 6)] := by
  decide

/-- Witness for `c7_positions_recorded`: the tab records its position slot. -/
theorem c7_witness :
    (layoutStep cenvA (initLayoutState cenvA) 9).positions
      = (initLayoutState cenvA).positions ++ [some
          ((layoutStep cenvA (initLayoutState cenvA) 9).x
              - (if (9 : Nat) ≠ 10 ∧ (9 : Nat) ≠ 13 then
                  (if (9 : Nat) = 9 then (cenvA.glyphs 9).advance * cenvA.tabsize
                   else (cenvA.glyphs 9).advance)
                else 0)
              + (cenvA.glyphs 9).bitmap_left,
           (layoutStep cenvA (initLayoutState cenvA) 9).y - (cenvA.glyphs 9).bitmap_top
              + cenvA.baseline)] :=
  (c7_positions_recorded cenvA [] (initLayoutState cenvA) 9).2.1 (by decide)

/-- C8 counterexample to the claim as stated: with a sub-pixel kerning delta
of `-1` (so `-1/64` pixel), the pen lands at `x = 59` — it moved by `-1` —
while the claim's truncate-toward-zero rule predicts `x = 60` (a move of
`0`). -/
theorem c8_counterexample :
    (layoutStep cenvK cstK 66).x = 59
    ∧ cstK.x + Int.tdiv (cenvK.kern 65 66) 64 + (cenvK.glyphs 66).advance = 60 := by
  decide

/-- The arithmetic right shift by 6 on an integer is floor division by 64
(rounding toward negative infinity), on nonnegative and negative values
alike. -/
theorem shiftRight6_eq_fdiv (d : Int) : Int.shiftRight d 6 = Int.fdiv d 64 := by
  rcases d with m | m
  · rcases m with _ | m
    · decide
    · show Int.ofNat ((m + 1) >>> 6) = Int.ofNat ((m + 1) / 64)
      rw [Nat.shiftRight_eq_div_pow]
  · show Int.negSucc (m >>> 6) = Int.negSucc (m / 64)
    rw [Nat.shiftRight_eq_div_pow]

/-- C8 (amended): for every kerning result, the horizontal kerning delta
added to the pen before placing is `delta.x >> 6`, an arithmetic shift equal
to floor division by 64 — it rounds toward negative infinity, so a sub-pixel
kerning result of `-1/64` moves the pen by `-1`, not by `0`. -/
theorem c8_kerning_floor (env : LayoutEnv) (s : LayoutState) (code p : Nat)
    (hk : env.use_kerning = true) (hg : s.glyph = some p) (h0 : code ≠ 0)
    (hskip : ¬(s.prev_code = 13 ∧ code = 10))
    (hw : s.x + Int.fdiv (env.kern p code) 64 + (env.glyphs code).advance < env.width)
    (h13 : code ≠ 13) (h10 : code ≠ 10) (h9 : code ≠ 9) :
    (layoutStep env s code).x
      = s.x + Int.fdiv (env.kern p code) 64 + (env.glyphs code).advance
    ∧ Int.fdiv (-1 : Int) 64 = -1 := by
  refine ⟨?_, by decide⟩
  have hw1 : ¬(env.width ≤ s.x + Int.fdiv (env.kern p code) 64 + (env.glyphs code).advance) :=
    not_le.mpr hw
  simp [layoutStep, hskip, hk, hg, h0, h13, h10, h9, shiftRight6_eq_fdiv, hw1]

/-- Witness for `c8_kerning_floor` at the concrete kerning environment with
delta `-1`: the pen lands at `50 + (-1) + 10 = 59`. -/
theorem c8_witness :
    (layoutStep cenvK cstK 66).x
      = cstK.x + Int.fdiv (cenvK.kern 65 66) 64 + (cenvK.glyphs 66).advance :=
  (c8_kerning_floor cenvK cstK 66 65 rfl rfl (by decide) (by decide) (by decide)
    (by decide) (by decide) (by decide)).1

/-- The `str_w` accumulator after one step, with the same branch structure as
the loop body. -/
theorem str_w_step (env : LayoutEnv) (s : LayoutState) (code : Nat) :
    (layoutStep env s code).str_w
      = if s.prev_code = 13 ∧ code = 10 then s.str_w
        else if code ≠ 10 ∧ code ≠ 13 then
          s.str_w + (if code = 9 then (env.glyphs code).advance * env.tabsize
            else (env.glyphs code).advance)
        else s.str_w := by
  simp only [layoutStep]
  split_ifs <;> rfl

/-- The `prev_code` field after one step. -/
theorem prev_code_step (env : LayoutEnv) (s : LayoutState) (code : Nat) :
    (layoutStep env s code).prev_code
      = if s.prev_code = 13 ∧ code = 10 then s.prev_code else code := by
  simp only [layoutStep]
  split_ifs <;> rfl

/-- The `str_w` accumulator is never reset: the loop adds `advance_sum` of
the whole codepoint sequence on top of the starting value. -/
theorem str_w_run (env : LayoutEnv) (codes : List Nat) :
    ∀ s : LayoutState,
      (codes.foldl (layoutStep env) s).str_w = s.str_w + advance_sum env s.prev_code codes := by
  induction codes with
  | nil => intro s; simp [advance_sum]
  | cons c cs ih =>
    intro s
    simp only [List.foldl_cons]
    rw [ih (layoutStep env s c), str_w_step, prev_code_step, advance_sum]
    by_cases hskip : s.prev_code = 13 ∧ c = 10
    · rw [if_pos hskip, if_pos hskip, if_pos hskip]
    · rw [if_neg hskip, if_neg hskip, if_neg hskip]
      split_ifs <;> ring

/-- C10 (amended): when no width-based wrap ever fires (`str_w_max` stays 0),
the box width used for drawing is the total of the advances of all
codepoints across all lines (tabs counting `advance * tabsize`, `\r`, `\n`
and a suppressed `\n` counting 0) — not the longest or final line — clamped
to `width - x0 - 1`. -/
theorem c10_box_width (env : LayoutEnv) (codes : List Nat)
    (hnowrap : (layoutRun env codes).str_w_max = 0) :
    box_width_drawn env codes = min (advance_sum env 0 codes) (env.width - env.x0 - 1) := by
  have h1 : (layoutRun env codes).str_w = advance_sum env 0 codes := by
    rw [layoutRun, str_w_run]
    simp [initLayoutState]
  simp [box_width_drawn, str_w_final, hnowrap, h1]

/-- C10 counterexample to the claim as stated: two 60-wide lines separated by
`\n` in a 100-wide frame never width-wrap, so the accumulator reaches 120,
but the drawn box width is clamped to `width - x0 - 1 = 99`, not the
advance sum 120. -/
theorem c10_counterexample :
    box_width_drawn cenvB [65, 10, 66] = 99
    ∧ advance_sum cenvB 0 [65, 10, 66] = 120 := by
  decide

/-- Witness for `c10_box_width` in the wide environment. -/
theorem c10_witness :
    box_width_drawn cenvA [65, 66]
      = min (advance_sum cenvA 0 [65, 66]) (cenvA.width - cenvA.x0 - 1) :=
  c10_box_width cenvA [65, 66] (by decide)

/-- One cache access preserves the invariant, leaves the requested code
resident with the rasterizer's record, and returns that record. -/
theorem find_or_load_inv (rast : Nat → GlyphM) (st : GlyphCache) (code : Nat)
    (h : cacheInv rast st) :
    cacheInv rast (find_or_load rast st code).1
    ∧ tree_find (find_or_load rast st code).1.entries code = some (rast code)
    ∧ (find_or_load rast st code).2 = rast code := by
  rcases hmem : tree_find st.entries code with _ | g
  · -- miss: the rasterizer runs once and the record is inserted
    have hc := h code
    rcases hc with ⟨hcount, hc⟩
    rcases hc with ⟨hfind, -⟩ | ⟨-, hzero⟩
    · rw [hmem] at hfind; cases hfind
    · refine ⟨?_, ?_, ?_⟩
      · intro d
        have hold := h d
        by_cases hdc : code = d
        · subst hdc
          refine ⟨?_, Or.inl ⟨?_, ?_⟩⟩
          · simp [find_or_load, hmem, load_glyph, List.countP_cons, List.count_append,
              hcount]
          · simp [find_or_load, hmem, load_glyph, tree_find]
          · simp [find_or_load, hmem, load_glyph, List.count_append, hzero]
        · rcases hold with ⟨hcnt, hdisj⟩
          refine ⟨?_, ?_⟩
          · simp [find_or_load, hmem, load_glyph, List.countP_cons, List.count_append,
              List.count_cons, hdc, hcnt]
          · rcases hdisj with ⟨hf, hone⟩ | ⟨hf, hzero'⟩
            · exact Or.inl ⟨by simp [find_or_load, hmem, load_glyph, tree_find, hdc, hf],
                by simp [find_or_load, hmem, load_glyph, List.count_append, List.count_cons,
                  hdc, hone]⟩
            · exact Or.inr ⟨by simp [find_or_load, hmem, load_glyph, tree_find, hdc, hf],
                by simp [find_or_load, hmem, load_glyph, List.count_append, List.count_cons,
                  hdc, hzero']⟩
      · simp [find_or_load, hmem, load_glyph, tree_find]
      · simp [find_or_load, hmem, load_glyph]
  · -- hit: nothing changes
    have hc := h code
    rcases hc with ⟨-, hc⟩
    rcases hc with ⟨hfind, -⟩ | ⟨hfind, -⟩
    · refine ⟨by simpa [find_or_load, hmem] using h, ?_, ?_⟩
      · simpa [find_or_load, hmem] using hmem.symm.trans hfind
      · have : g = rast code := by
          rw [hmem] at hfind
          exact (Option.some.injEq _ _).mp hfind
        simp [find_or_load, hmem, this]
    · rw [hmem] at hfind; cases hfind

/-- A resident record stays resident (with the same value) through one cache
access. -/
theorem find_some_mono (rast : Nat → GlyphM) (st : GlyphCache) (code c : Nat)
    (h : cacheInv rast st) (hc : tree_find st.entries c = some (rast c)) :
    tree_find (find_or_load rast st code).1.entries c = some (rast c) := by
  rcases hmem : tree_find st.entries code with _ | g
  · have hne : code ≠ c := by
      intro he
      subst he
      rw [hmem] at hc
      cases hc
    simpa [find_or_load, hmem, load_glyph, tree_find, hne] using hc
  · simpa [find_or_load, hmem] using hc

/-- A resident record stays resident through a whole load pass. -/
theorem find_some_pass (rast : Nat → GlyphM) (codes : List Nat) :
    ∀ st : GlyphCache, cacheInv rast st → ∀ c,
      tree_find st.entries c = some (rast c) →
      tree_find (load_pass rast st codes).entries c = some (rast c) := by
  induction codes with
  | nil => intro st _ c hc; simpa [load_pass] using hc
  | cons d ds ih =>
    intro st h c hc
    have h1 := (find_or_load_inv rast st d h).1
    have h2 := find_some_mono rast st d c h hc
    simpa [load_pass, List.foldl_cons] using ih (find_or_load rast st d).1 h1 c h2

/-- A load pass preserves the invariant and leaves every requested codepoint
resident with the rasterizer's record. -/
theorem load_pass_inv (rast : Nat → GlyphM) (codes : List Nat) :
    ∀ st : GlyphCache, cacheInv rast st →
      cacheInv rast (load_pass rast st codes)
      ∧ ∀ c ∈ codes, tree_find (load_pass rast st codes).entries c = some (rast c) := by
  induction codes with
  | nil => intro st h; exact ⟨by simpa [load_pass] using h, by simp⟩
  | cons c cs ih =>
    intro st h
    obtain ⟨h1, h2, -⟩ := find_or_load_inv rast st c h
    obtain ⟨hI, hM⟩ := ih (find_or_load rast st c).1 h1
    refine ⟨by simpa [load_pass, List.foldl_cons] using hI, ?_⟩
    intro d hd
    rcases List.mem_cons.mp hd with hd | hd
    · subst hd
      have := find_some_pass rast cs (find_or_load rast st d).1 h1 d h2
      simpa [load_pass, List.foldl_cons] using this
    · have := hM d hd
      simpa [load_pass, List.foldl_cons] using this

/-- C9 (confirmed): starting from a fresh cache, a sequence of lookups calls
the rasterizer at most once per codepoint; a codepoint that was looked up
has been rasterized exactly once, holds exactly one cache record, and any
later lookup is a hit that returns the identical rasterized record without
touching the cache or the call trace. -/
theorem c9_cache_once (rast : Nat → GlyphM) (codes : List Nat) (c : Nat) :
    (load_pass rast empty_cache codes).calls.count c ≤ 1
    ∧ (c ∈ codes →
        (load_pass rast empty_cache codes).calls.count c = 1
        ∧ (load_pass rast empty_cache codes).entries.countP (fun e => e.1 == c) = 1
        ∧ find_or_load rast (load_pass rast empty_cache codes) c
            = (load_pass rast empty_cache codes, rast c)) := by
  have h0 : cacheInv rast empty_cache := by
    intro d
    refine ⟨by simp [empty_cache], Or.inr ⟨rfl, by simp [empty_cache]⟩⟩
  obtain ⟨hInv, hMem⟩ := load_pass_inv rast codes empty_cache h0
  constructor
  · rcases (hInv c).2 with ⟨-, h1⟩ | ⟨-, h1⟩ <;> omega
  · intro hc
    have hf := hMem c hc
    rcases (hInv c).2 with ⟨-, h1⟩ | ⟨hnone, -⟩
    · refine ⟨h1, ?_, ?_⟩
      · have h2 := (hInv c).1
        omega
      · simp [find_or_load, hf]
    · rw [hf] at hnone
      cases hnone

/-- Witness for `c9_cache_once`: codepoint 5 looked up twice in one pass is
rasterized once and later lookups hit. -/
theorem c9_witness :
    (load_pass rast0 empty_cache [5, 5, 7]).calls.count 5 = 1 :=
  ((c9_cache_once rast0 [5, 5, 7] 5).2 (by decide)).1

end Drawtext
